import Mathlib

/-!
Shallow embedding of the PUP firmware-container extractor
(src/scripts/install_ps4_firmware.py) and verification of its
specification claims.

Buffers are lists of bytes, each byte a `Nat` reduced mod 256 where the
source reads it through `struct.unpack` or `zlib`. Python stream reads
(`stream.read(n)` after `seek`) clamp at the end of the buffer, which the
embedding mirrors with `List.drop`/`List.take`. The exceptions the script
can raise are mapped to the constructors of `ParseError` following the
error taxonomy of the specification: the `struct.error` on a short header
read is `HeaderTooShort`, the `RuntimeError` on a magic mismatch is
`InvalidMagic`, the `struct.error` inside the entry loop is
`TruncatedEntryTable`, and a `zlib.error` is `DecompressionError`.
`TruncatedPayload` is declared so the corresponding claims are statable;
the script has no code path that raises it.
-/

deriving instance DecidableEq for Except

namespace PUPModel

/-- Little-endian value of a byte list (least significant byte first);
each element is reduced mod 256, matching the byte semantics of
`struct.unpack` with the `<` layout. -/
def leNat : List Nat → Nat
  | [] => 0
  | b :: bs => b % 256 + 256 * leNat bs

/-- Embedding of a Python stream read: `seek(pos)` then `read(n)`, which
returns the bytes `buf[pos : pos+n]` clamped to the end of the buffer. -/
def sliceRead (buf : List Nat) (pos n : Nat) : List Nat :=
  (buf.drop pos).take n

/-- Little-endian integer decoded from `n` bytes of `buf` at `pos`. -/
def readLE (buf : List Nat) (pos n : Nat) : Nat :=
  leNat (sliceRead buf pos n)

/-- Error taxonomy of the specification for the parse and extract
pipeline. -/
inductive ParseError where
  | HeaderTooShort
  | InvalidMagic
  | TruncatedEntryTable
  | TruncatedPayload
  | DecompressionError
deriving DecidableEq

/-- Embedding of the static `FILES` dictionary mapping a module-type
identifier to its canonical output filename, in source order. -/
def FILES : List (Nat × String) :=
  [(0x1, "emc_ipl.slb"),
   (0x2, "eap_kbl.slb"),
   (0x3, "torus2_fw.slb"),
   (0x4, "sam_ipl.slb"),
   (0x5, "coreos.slb"),
   (0x6, "system_exfat.img"),
   (0x7, "eap_kernel.slb"),
   (0x8, "eap_vsh_fat16.img"),
   (0x9, "preinst_fat32.img"),
   (0xB, "preinst2_fat32.img"),
   (0xC, "system_ex_exfat.img"),
   (0xD, "emc_ipl.slb"),
   (0xE, "eap_kbl.slb"),
   (0x20, "emc_ipl.slb"),
   (0x21, "eap_kbl.slb"),
   (0x22, "torus2_fw.slb"),
   (0x23, "sam_ipl.slb"),
   (0x24, "emc_ipl.slb"),
   (0x25, "eap_kbl.slb"),
   (0x26, "sam_ipl.slb"),
   (0x27, "sam_ipl.slb"),
   (0x28, "emc_ipl.slb"),
   (0x2A, "emc_ipl.slb"),
   (0x2B, "eap_kbl.slb"),
   (0x2C, "emc_ipl.slb"),
   (0x2D, "sam_ipl.slb"),
   (0x2E, "emc_ipl.slb"),
   (0x30, "torus2_fw.bin"),
   (0x31, "sam_ipl.slb"),
   (0x32, "sam_ipl.slb"),
   (0x101, "eula.xml"),
   (0x200, "orbis_swu.elf"),
   (0x202, "orbis_swu.self"),
   (0xD01, "bd_firm.slb"),
   (0xD02, "sata_bridge_fw.slb"),
   (0xD09, "cp_fw_kernel.slb")]

/-- Dictionary lookup, `FILES.get(k)` in the source. -/
def lookupName (k : Nat) : Option String :=
  (FILES.find? (fun p => p.1 == k)).map (fun p => p.2)

/-- Uppercase hexadecimal digit for a value below 16. -/
def hexDigit (n : Nat) : Char :=
  if n < 10 then Char.ofNat (48 + n) else Char.ofNat (55 + n)

/-- Fuel-driven digit extraction: peels hexadecimal digits of `n` from
the least significant end, most significant first in the result. The
fuel only bounds the recursion; `n` itself is always enough fuel since
`n / 16 < n` for positive `n`. -/
def toHexGo (fuel n : Nat) : List Char :=
  match fuel with
  | 0 => []
  | fuel + 1 => if n = 0 then [] else toHexGo fuel (n / 16) ++ [hexDigit (n % 16)]

/-- Uppercase hexadecimal digits of `n`, most significant first; empty
for `n = 0` (the zero padding below supplies the digits of zero). -/
def toHexAux (n : Nat) : List Char :=
  toHexGo n n

/-- Embedding of the Python format specifier `{n:04X}`: uppercase
hexadecimal, zero-padded on the left to a minimum width of 4. -/
def hex04X (n : Nat) : String :=
  String.mk (List.replicate (4 - (toHexAux n).length) '0' ++ toHexAux n)

/-- One decoded PUP entry descriptor together with its (initially empty,
later processed) payload bytes, mirroring the `PUPEntry` class. -/
structure PUPEntry where
  flags : Nat
  offset : Nat
  file_size : Nat
  memory_size : Nat
  data : List Nat
deriving DecidableEq

/-- The `file_name` property of `PUPEntry`:
`FILES.get(self.flags >> 20, f"unknown_{self.flags >> 20:04X}")`. -/
def PUPEntry.file_name (e : PUPEntry) : String :=
  match lookupName (e.flags >>> 20) with
  | some s => s
  | none => "unknown_" ++ hex04X (e.flags >>> 20)

/-- The `compressed` property of `PUPEntry`: `bool(self.flags & 0x8)`. -/
def PUPEntry.compressed (e : PUPEntry) : Bool :=
  e.flags &&& 0x8 != 0

/-- Step of the Adler-32 checksum used by the zlib stream format:
`s1 := (s1 + byte) mod 65521`, `s2 := (s2 + s1) mod 65521`. -/
def adlerStep (p : Nat × Nat) (b : Nat) : Nat × Nat :=
  ((p.1 + b % 256) % 65521, (p.2 + (p.1 + b % 256) % 65521) % 65521)

/-- Adler-32 checksum of a byte list, starting from `(1, 0)`:
the high half is `s2`, the low half `s1`. -/
def adler32 (bs : List Nat) : Nat :=
  (bs.foldl adlerStep (1, 0)).2 * 65536 + (bs.foldl adlerStep (1, 0)).1

/-- Modelled from the spec: the DEFLATE block layer of the zlib stream
decompression the script delegates to (`zlib.decompressobj`, external to
this repository — only its caller `PUPEntry.process_bytes` is in src/).
The spec asks for a "zlib-compatible, deflate-based" stream algorithm;
the model implements the stored-block (`BTYPE = 00`) subset of DEFLATE:
each block is a header byte (`BFINAL` in bit 0, `BTYPE` in bits 1-2,
padding to the byte boundary in the rest), a 16-bit little-endian `LEN`,
its complement `NLEN`, and `LEN` literal bytes; blocks repeat until
`BFINAL`. Returns the decompressed output and the bytes remaining after
the final block, or `DecompressionError` on malformed input. -/
def inflateBlocks (s : List Nat) : Except ParseError (List Nat × List Nat) :=
  match s with
  | [] => .error .DecompressionError
  | h :: rest =>
    if (h / 2) % 4 ≠ 0 then .error .DecompressionError
    else match rest with
      | l0 :: l1 :: n0 :: n1 :: tail =>
        if (n0 % 256 + 256 * (n1 % 256)) ≠ 65535 - (l0 % 256 + 256 * (l1 % 256)) then
          .error .DecompressionError
        else if tail.length < l0 % 256 + 256 * (l1 % 256) then
          .error .DecompressionError
        else if h % 2 = 1 then
          .ok (tail.take (l0 % 256 + 256 * (l1 % 256)),
               tail.drop (l0 % 256 + 256 * (l1 % 256)))
        else
          match inflateBlocks (tail.drop (l0 % 256 + 256 * (l1 % 256))) with
          | .ok (out, rest2) => .ok (tail.take (l0 % 256 + 256 * (l1 % 256)) ++ out, rest2)
          | .error e => .error e
      | _ => .error .DecompressionError
termination_by s.length
decreasing_by
  simp [List.length_drop]
  omega

/-- Validity of the two-byte zlib stream header: compression method 8
(DEFLATE), window size at most 32K, header checksum divisible by 31, and
no preset dictionary. -/
def zlibHeaderOK (cmf flg : Nat) : Bool :=
  cmf % 256 % 16 == 8 && cmf % 256 / 16 ≤ 7 &&
    (cmf % 256 * 256 + flg % 256) % 31 == 0 && flg % 256 / 32 % 2 == 0

/-- Modelled from the spec: the whole-stream zlib decompression performed
by `zlib.decompressobj().decompress(data)` followed by `flush()` in the
source (the zlib module itself is external to this repository). The
entire stream is consumed: the two-byte header is validated, the DEFLATE
blocks are inflated, and the trailing four-byte big-endian Adler-32
checksum is verified against the output; bytes after the checksum are
tolerated (they land in `unused_data`). Malformed input yields
`DecompressionError`. -/
def zlibInflate (d : List Nat) : Except ParseError (List Nat) :=
  match d with
  | cmf :: flg :: rest =>
    if zlibHeaderOK cmf flg then
      match inflateBlocks rest with
      | .ok (out, rest2) =>
        match rest2 with
        | a0 :: a1 :: a2 :: a3 :: _ =>
          if a0 % 256 * 16777216 + a1 % 256 * 65536 + a2 % 256 * 256 + a3 % 256 = adler32 out
          then .ok out
          else .error .DecompressionError
        | _ => .error .DecompressionError
      | .error e => .error e
    else .error .DecompressionError
  | _ => .error .DecompressionError

/-- Modelled from the spec: a zlib-compatible DEFLATE compressor over
stored blocks (the round-trip partner of `zlibInflate`, as produced by
`zlib.compress` at level 0). The input is split into stored blocks of at
most 65535 bytes; only the last block carries `BFINAL = 1`. -/
def deflateStored (xs : List Nat) : List Nat :=
  if xs.length ≤ 65535 then
    1 :: xs.length % 256 :: xs.length / 256 ::
      (65535 - xs.length) % 256 :: (65535 - xs.length) / 256 :: xs
  else
    0 :: 255 :: 255 :: 0 :: 0 :: (xs.take 65535 ++ deflateStored (xs.drop 65535))
termination_by xs.length
decreasing_by
  simp [List.length_drop]
  omega

/-- Modelled from the spec: full zlib stream compression with stored
blocks: the header `0x78 0x01`, the DEFLATE blocks, and the big-endian
Adler-32 checksum of the input. -/
def zlibCompress (xs : List Nat) : List Nat :=
  120 :: 1 :: (deflateStored xs ++
    [adler32 xs / 16777216 % 256, adler32 xs / 65536 % 256,
     adler32 xs / 256 % 256, adler32 xs % 256])

/-- The `process_bytes` method of `PUPEntry`: decompress the raw payload
when the compression bit is set, otherwise store it unchanged. The Python
method mutates `self.data`; the embedding returns the updated entry, or
the propagated `zlib.error` as `DecompressionError`. -/
def PUPEntry.process_bytes (e : PUPEntry) (d : List Nat) : Except ParseError PUPEntry :=
  if e.compressed then
    match zlibInflate d with
    | .ok inflated => .ok { e with data := inflated }
    | .error err => .error err
  else .ok { e with data := d }

/-- Decoding of one 32-byte entry record by
`struct.unpack("<QQQQ", ...)`: four 8-byte little-endian unsigned
integers `flags, offset, file_size, memory_size`; the payload starts
empty as in `PUPEntry.__init__`. -/
def decodeEntry (r : List Nat) : PUPEntry :=
  { flags := leNat (sliceRead r 0 8)
    offset := leNat (sliceRead r 8 8)
    file_size := leNat (sliceRead r 16 8)
    memory_size := leNat (sliceRead r 24 8)
    data := [] }

/-- The entry-table loop of `PUP.parse`: starting at stream position
`pos`, read `n` records of 32 bytes each, appending the decoded entries
in order. A short read makes `struct.unpack` raise, embedded as
`TruncatedEntryTable`; the entries decoded before the failure are kept,
matching the in-place `self.entries.append` of the source. -/
def entriesLoop (buf : List Nat) : Nat → Nat → List PUPEntry × Option ParseError
  | _, 0 => ([], none)
  | pos, n + 1 =>
    if buf.length < pos + 32 then ([], some .TruncatedEntryTable)
    else
      let e := decodeEntry (sliceRead buf pos 32)
      let r := entriesLoop buf (pos + 32) n
      (e :: r.1, r.2)

/-- The payload loop of `PUP.parse`: for each entry in order,
`stream.seek(entry.offset)` then `entry.process_bytes(stream.read(entry.file_size))`.
Both seek and read clamp to the buffer, so the raw payload is the slice
`buf[offset : offset + file_size]` with no bounds check. A decompression
failure aborts the loop; entries processed earlier keep their data and
the failing and later entries stay unprocessed, matching the in-place
mutation of the source. -/
def payloadLoop (buf : List Nat) : List PUPEntry → List PUPEntry × Option ParseError
  | [] => ([], none)
  | e :: es =>
    match PUPEntry.process_bytes e (sliceRead buf e.offset e.file_size) with
    | .error err => (e :: es, some err)
    | .ok e2 =>
      let r := payloadLoop buf es
      (e2 :: r.1, r.2)

/-- State-level embedding of `PUP.parse` on a freshly constructed `PUP`
(whose `entries` list starts empty): returns the `entries` list as the
method leaves it, together with the raised exception if any. The fixed
header is 32 bytes (`struct.calcsize("<IBBBBBBHHHIIHHI")`); `magic` is
the little-endian 32-bit word at offset 0 and `entries_count` the
little-endian 16-bit word at offset 24. -/
def parseS (buf : List Nat) : List PUPEntry × Option ParseError :=
  if buf.length < 32 then ([], some .HeaderTooShort)
  else if readLE buf 0 4 ≠ 0x1D3D154F then ([], some .InvalidMagic)
  else
    match entriesLoop buf 32 (readLE buf 24 2) with
    | (es, some err) => (es, some err)
    | (es, none) => payloadLoop buf es

/-- Result-level view of `PUP.parse`: the parsed entry list on success,
the raised error otherwise. -/
def parse (buf : List Nat) : Except ParseError (List PUPEntry) :=
  match parseS buf with
  | (_, some err) => .error err
  | (es, none) => .ok es

/-- One overwriting file write: the filesystem under the output
directory is modelled as an association list from filename to contents,
and `open('wb')` + `write` replaces any previous contents. -/
def fsWrite (fs : List (String × List Nat)) (n : String) (d : List Nat) :
    List (String × List Nat) :=
  (n, d) :: fs.filter (fun p => p.1 != n)

/-- Lookup of the final contents of a filename in the modelled output
directory. -/
def lookupFS (fs : List (String × List Nat)) (n : String) : Option (List Nat) :=
  (fs.find? (fun p => p.1 == n)).map (fun p => p.2)

/-- One iteration of `PUP.extract`: skip the entry if its filename is
falsy (the empty string), otherwise write its data to the filename. -/
def extractStep (fs : List (String × List Nat)) (e : PUPEntry) :
    List (String × List Nat) :=
  if e.file_name = "" then fs else fsWrite fs e.file_name e.data

/-- Embedding of `PUP.extract` over an empty output directory: the
entries are written in table order. -/
def extractFS (entries : List PUPEntry) : List (String × List Nat) :=
  entries.foldl extractStep []

/-! Lemmas about the Adler-32 checksum and the stored-block round trip. -/

theorem adler_foldl_lt (bs : List Nat) (p : Nat × Nat)
    (h1 : p.1 < 65521) (h2 : p.2 < 65521) :
    (bs.foldl adlerStep p).1 < 65521 ∧ (bs.foldl adlerStep p).2 < 65521 := by
  induction bs generalizing p with
  | nil => exact ⟨h1, h2⟩
  | cons b bs ih =>
    exact ih (adlerStep p b) (Nat.mod_lt _ (by omega)) (Nat.mod_lt _ (by omega))

theorem adler32_lt (bs : List Nat) : adler32 bs < 4294967296 := by
  have h := adler_foldl_lt bs (1, 0) (by omega) (by omega)
  unfold adler32
  omega

theorem inflateBlocks_deflateStored_aux :
    ∀ n (xs suffix : List Nat), xs.length = n →
      inflateBlocks (deflateStored xs ++ suffix) = .ok (xs, suffix) := by
  intro n
  induction n using Nat.strong_induction_on with
  | _ n ih =>
    intro xs suffix hlen
    rw [deflateStored]
    by_cases hle : xs.length ≤ 65535
    · rw [if_pos hle]
      rw [inflateBlocks.eq_def]
      have hl : xs.length % 256 % 256 + 256 * (xs.length / 256 % 256) = xs.length := by
        omega
      have hn : (65535 - xs.length) % 256 % 256 + 256 * ((65535 - xs.length) / 256 % 256)
          = 65535 - xs.length := by
        omega
      simp only [List.cons_append, hl, hn]
      rw [if_neg (by norm_num)]
      rw [if_neg (by omega)]
      rw [if_neg (by simp only [List.length_append]; omega)]
      rw [if_pos (by norm_num)]
      rw [List.take_left' rfl, List.drop_left' rfl]
    · rw [if_neg hle]
      rw [inflateBlocks.eq_def]
      have htk : (xs.take 65535).length = 65535 := by
        simp [List.length_take]; omega
      simp only [List.cons_append, List.append_assoc]
      rw [if_neg (by norm_num)]
      have h255 : (255 : Nat) % 256 + 256 * (255 % 256) = 65535 := by norm_num
      rw [if_neg (by omega)]
      rw [if_neg (by simp only [List.length_append]; omega)]
      rw [if_neg (by norm_num)]
      rw [List.drop_left' htk, List.take_left' htk]
      rw [ih (xs.length - 65535) (by omega) (xs.drop 65535) suffix (by simp)]
      simp [List.take_append_drop]

theorem inflateBlocks_deflateStored (xs suffix : List Nat) :
    inflateBlocks (deflateStored xs ++ suffix) = .ok (xs, suffix) :=
  inflateBlocks_deflateStored_aux xs.length xs suffix rfl

/-- Round trip of the modelled zlib stream codec: inflating a stream
compressed with stored blocks recovers the input exactly. -/
theorem zlibInflate_zlibCompress (xs : List Nat) :
    zlibInflate (zlibCompress xs) = .ok xs := by
  have hA := adler32_lt xs
  rw [zlibCompress, zlibInflate]
  rw [if_pos (by norm_num [zlibHeaderOK])]
  rw [inflateBlocks_deflateStored]
  simp only
  rw [if_pos (by omega)]

/-! Lemmas about the parse loops. -/

/-- Placeholder entry used with `List.getD` when indexing entry lists. -/
def dfltEntry : PUPEntry :=
  { flags := 0, offset := 0, file_size := 0, memory_size := 0, data := [] }

theorem drop_take_comm {α : Type} (l : List α) :
    ∀ n q, (l.take n).drop q = (l.drop q).take (n - q) := by
  induction l with
  | nil => intro n q; simp
  | cons a l ih =>
    intro n q
    cases n with
    | zero => simp
    | succ n =>
      cases q with
      | zero => simp
      | succ q => simpa using ih n q

theorem sliceRead_sliceRead (buf : List Nat) (pos n q m : Nat) (h : q + m ≤ n) :
    sliceRead (sliceRead buf pos n) q m = sliceRead buf (pos + q) m := by
  unfold sliceRead
  rw [drop_take_comm, List.take_take, List.drop_drop]
  congr 1
  omega

theorem process_bytes_fields (e : PUPEntry) (d : List Nat) (e2 : PUPEntry)
    (h : PUPEntry.process_bytes e d = .ok e2) :
    e2.flags = e.flags ∧ e2.offset = e.offset ∧ e2.file_size = e.file_size ∧
      e2.memory_size = e.memory_size := by
  unfold PUPEntry.process_bytes at h
  by_cases hc : e.compressed
  · rw [if_pos hc] at h
    cases hz : zlibInflate d with
    | ok out => rw [hz] at h; cases h; exact ⟨rfl, rfl, rfl, rfl⟩
    | error err => rw [hz] at h; cases h
  · rw [if_neg hc] at h
    cases h
    exact ⟨rfl, rfl, rfl, rfl⟩

theorem entriesLoop_ok (buf : List Nat) :
    ∀ n pos es, entriesLoop buf pos n = (es, none) →
      es.length = n ∧
        ∀ i, i < n → es.getD i dfltEntry = decodeEntry (sliceRead buf (pos + 32 * i) 32) := by
  intro n
  induction n with
  | zero =>
    intro pos es h
    unfold entriesLoop at h
    cases h
    exact ⟨rfl, fun i hi => absurd hi (Nat.not_lt_zero i)⟩
  | succ n ih =>
    intro pos es h
    unfold entriesLoop at h
    by_cases hlt : buf.length < pos + 32
    · rw [if_pos hlt] at h; cases h
    · rw [if_neg hlt] at h
      simp only at h
      cases heq : entriesLoop buf (pos + 32) n with
      | mk es0 r0 =>
        rw [heq] at h
        cases h
        obtain ⟨hlen, hget⟩ := ih (pos + 32) es0 heq
        refine ⟨by simp [hlen], ?_⟩
        intro i hi
        cases i with
        | zero => simp
        | succ i =>
          have hstep : pos + 32 + 32 * i = pos + 32 * (i + 1) := by ring
          simpa [hstep] using hget i (by omega)

theorem payloadLoop_ok (buf : List Nat) :
    ∀ es es2, payloadLoop buf es = (es2, none) →
      es2.length = es.length ∧
        ∀ i, i < es.length →
          PUPEntry.process_bytes (es.getD i dfltEntry)
              (sliceRead buf (es.getD i dfltEntry).offset (es.getD i dfltEntry).file_size)
            = .ok (es2.getD i dfltEntry) := by
  intro es
  induction es with
  | nil =>
    intro es2 h
    unfold payloadLoop at h
    cases h
    exact ⟨rfl, fun i hi => absurd hi (Nat.not_lt_zero i)⟩
  | cons e es ih =>
    intro es2 h
    unfold payloadLoop at h
    cases hp : PUPEntry.process_bytes e (sliceRead buf e.offset e.file_size) with
    | error err => rw [hp] at h; cases h
    | ok e2 =>
      rw [hp] at h
      simp only at h
      cases heq : payloadLoop buf es with
      | mk es0 r0 =>
        rw [heq] at h
        cases h
        obtain ⟨hlen, hget⟩ := ih es0 heq
        refine ⟨by simp [hlen], ?_⟩
        intro i hi
        cases i with
        | zero => simpa using hp
        | succ i => simpa using hget i (by simp at hi; omega)

/-! Lemmas about filename resolution and the extraction filesystem. -/

theorem mem_FILES_ne_empty : ∀ p ∈ FILES, p.2 ≠ "" := by decide

theorem lookupName_ne_empty (k : Nat) (s : String) (h : lookupName k = some s) :
    s ≠ "" := by
  unfold lookupName at h
  cases hf : FILES.find? (fun p => p.1 == k) with
  | none => rw [hf] at h; cases h
  | some p =>
    rw [hf] at h
    cases h
    exact mem_FILES_ne_empty p (List.mem_of_find?_eq_some hf)

theorem file_name_ne_empty (e : PUPEntry) : e.file_name ≠ "" := by
  unfold PUPEntry.file_name
  cases hf : lookupName (e.flags >>> 20) with
  | some s => exact lookupName_ne_empty _ s hf
  | none =>
    intro h
    have hlen := congrArg String.length h
    rw [String.length_append] at hlen
    have h8 : ("unknown_" : String).length = 8 := rfl
    have h0 : ("" : String).length = 0 := rfl
    omega

theorem find?_key_filter (fs : List (String × List Nat)) (n m : String) (h : m ≠ n) :
    (fs.filter (fun p => p.1 != n)).find? (fun p => p.1 == m)
      = fs.find? (fun p => p.1 == m) := by
  induction fs with
  | nil => rfl
  | cons p fs ih =>
    by_cases hm : p.1 = m
    · have h1 : (p.1 != n) = true := by simp [hm, h]
      simp [List.filter_cons, List.find?_cons, h1, hm, h]
    · by_cases hn : p.1 = n
      · simp [List.filter_cons, List.find?_cons, hn, hm, ih, h, Ne.symm h]
      · simp [List.filter_cons, List.find?_cons, hn, hm, ih]

theorem lookupFS_fsWrite (fs : List (String × List Nat)) (n : String) (d : List Nat)
    (m : String) :
    lookupFS (fsWrite fs n d) m = if m = n then some d else lookupFS fs m := by
  unfold lookupFS fsWrite
  by_cases h : m = n
  · subst h
    simp [List.find?_cons]
  · rw [if_neg h]
    rw [List.find?_cons_of_neg _ (by simp only [beq_iff_eq]; exact fun hh => h hh.symm),
        find?_key_filter fs n m h]

theorem extract_foldl (entries : List PUPEntry) :
    ∀ fs name, lookupFS (entries.foldl extractStep fs) name =
      ((entries.reverse.find? (fun e => e.file_name == name)).map
        (fun e => e.data)).or (lookupFS fs name) := by
  induction entries with
  | nil => intro fs name; simp
  | cons e es ih =>
    intro fs name
    rw [List.foldl_cons, ih, List.reverse_cons, List.find?_append]
    cases hfind : es.reverse.find? (fun e => e.file_name == name) with
    | some e2 => simp
    | none =>
      have hstep : extractStep fs e = fsWrite fs e.file_name e.data := by
        unfold extractStep
        rw [if_neg (file_name_ne_empty e)]
      rw [hstep, lookupFS_fsWrite]
      by_cases h : e.file_name = name
      · simp [List.find?_cons, h]
      · have hb : (e.file_name == name) = false := by simp [h]
        simp [List.find?_cons, hb, Ne.symm h]

theorem toHexGo_length_le : ∀ fuel n d, n < 16 ^ d → (toHexGo fuel n).length ≤ d := by
  intro fuel
  induction fuel with
  | zero => intro n d h; simp [toHexGo]
  | succ fuel ih =>
    intro n d h
    unfold toHexGo
    by_cases h0 : n = 0
    · simp [h0]
    · rw [if_neg h0]
      cases d with
      | zero =>
        have : n < 1 := by simpa using h
        omega
      | succ d =>
        have hdiv : n / 16 < 16 ^ d := by
          apply Nat.div_lt_of_lt_mul
          calc n < 16 ^ (d + 1) := h
            _ = 16 * 16 ^ d := by ring
        have := ih (n / 16) d hdiv
        simp only [List.length_append, List.length_cons, List.length_nil]
        omega

theorem toHexAux_length_le (d n : Nat) (h : n < 16 ^ d) : (toHexAux n).length ≤ d :=
  toHexGo_length_le n n d h

theorem parse_eq_ok (buf : List Nat) (es : List PUPEntry) :
    parse buf = .ok es ↔ parseS buf = (es, none) := by
  unfold parse
  cases hps : parseS buf with
  | mk es0 r0 =>
    cases r0 with
    | none => simp
    | some err => simp

theorem decodeEntry_sliceRead (buf : List Nat) (pos : Nat) :
    (decodeEntry (sliceRead buf pos 32)).flags = readLE buf pos 8 ∧
    (decodeEntry (sliceRead buf pos 32)).offset = readLE buf (pos + 8) 8 ∧
    (decodeEntry (sliceRead buf pos 32)).file_size = readLE buf (pos + 16) 8 ∧
    (decodeEntry (sliceRead buf pos 32)).memory_size = readLE buf (pos + 24) 8 := by
  unfold decodeEntry readLE
  refine ⟨?_, ?_, ?_, ?_⟩
  · rw [sliceRead_sliceRead buf pos 32 0 8 (by omega)]
    norm_num
  · rw [sliceRead_sliceRead buf pos 32 8 8 (by omega)]
  · rw [sliceRead_sliceRead buf pos 32 16 8 (by omega)]
  · rw [sliceRead_sliceRead buf pos 32 24 8 (by omega)]

/-! The claims. -/

/-- Concrete well-formed container for the C1 witness: valid magic, one
entry at table position 0 with `flags = 0` (uncompressed), `offset = 64`,
`file_size = 4`, and the four payload bytes `DE AD BE EF` at offset 64. -/
def c1wbuf : List Nat :=
  [0x4F, 0x15, 0x3D, 0x1D] ++ List.replicate 20 0 ++ [1, 0] ++ List.replicate 6 0
    ++ (List.replicate 8 0 ++ [64, 0, 0, 0, 0, 0, 0, 0] ++ [4, 0, 0, 0, 0, 0, 0, 0]
        ++ List.replicate 8 0)
    ++ [0xDE, 0xAD, 0xBE, 0xEF]

/-- The entry `parse` produces for `c1wbuf`. -/
def c1went : PUPEntry :=
  { flags := 0, offset := 64, file_size := 4, memory_size := 0
    data := [0xDE, 0xAD, 0xBE, 0xEF] }

/-- Concrete counterexample container for C1: identical to `c1wbuf`
except that the single entry claims `file_size = 8` while only 4 bytes
exist past offset 64, so the stream read comes back short. -/
def c1cbuf : List Nat :=
  [0x4F, 0x15, 0x3D, 0x1D] ++ List.replicate 20 0 ++ [1, 0] ++ List.replicate 6 0
    ++ (List.replicate 8 0 ++ [64, 0, 0, 0, 0, 0, 0, 0] ++ [8, 0, 0, 0, 0, 0, 0, 0]
        ++ List.replicate 8 0)
    ++ [0xDE, 0xAD, 0xBE, 0xEF]

/-- The entry `parse` produces for `c1cbuf`: its data holds only the 4
available bytes although `file_size = 8`. -/
def c1cent : PUPEntry :=
  { flags := 0, offset := 64, file_size := 8, memory_size := 0
    data := [0xDE, 0xAD, 0xBE, 0xEF] }

/-- C1 (amended): for every buffer that parses successfully, `parse`
returns exactly `entries_count` entry descriptors in table order, where
descriptor `i` is decoded from the 32-byte record (four 8-byte
little-endian unsigned integers `flags`, `offset`, `file_size`,
`memory_size`) immediately following the fixed header, and the raw
payload handed to payload processing for descriptor `i` is the slice of
the buffer starting at byte `offset`, clamped to the end of the buffer
(`file_size` bytes when `offset + file_size` is within bounds). -/
theorem c1_parse_table (buf : List Nat) (es : List PUPEntry)
    (h : parse buf = .ok es) :
    es.length = readLE buf 24 2 ∧
    ∀ i, i < es.length →
      (es.getD i dfltEntry).flags = readLE buf (32 + 32 * i) 8 ∧
      (es.getD i dfltEntry).offset = readLE buf (32 + 32 * i + 8) 8 ∧
      (es.getD i dfltEntry).file_size = readLE buf (32 + 32 * i + 16) 8 ∧
      (es.getD i dfltEntry).memory_size = readLE buf (32 + 32 * i + 24) 8 ∧
      PUPEntry.process_bytes (decodeEntry (sliceRead buf (32 + 32 * i) 32))
          (sliceRead buf (es.getD i dfltEntry).offset (es.getD i dfltEntry).file_size)
        = .ok (es.getD i dfltEntry) := by
  rw [parse_eq_ok] at h
  unfold parseS at h
  by_cases h32 : buf.length < 32
  · rw [if_pos h32] at h
    exact absurd h (by simp)
  · rw [if_neg h32] at h
    by_cases hm : readLE buf 0 4 ≠ 0x1D3D154F
    · rw [if_pos hm] at h
      exact absurd h (by simp)
    · rw [if_neg hm] at h
      cases hel : entriesLoop buf 32 (readLE buf 24 2) with
      | mk es1 r1 =>
        rw [hel] at h
        cases r1 with
        | some err => simp at h
        | none =>
          simp only at h
          obtain ⟨hlen1, hget1⟩ := entriesLoop_ok buf (readLE buf 24 2) 32 es1 hel
          obtain ⟨hlen2, hget2⟩ := payloadLoop_ok buf es1 es h
          refine ⟨by rw [hlen2, hlen1], ?_⟩
          intro i hi
          have hi1 : i < es1.length := by omega
          have hd := hget1 i (by omega)
          have hp := hget2 i hi1
          rw [hd] at hp
          obtain ⟨hf, ho, hs, hms⟩ := process_bytes_fields _ _ _ hp
          obtain ⟨df, dof, dfs, dms⟩ := decodeEntry_sliceRead buf (32 + 32 * i)
          refine ⟨?_, ?_, ?_, ?_, ?_⟩
          · rw [hf, df]
          · rw [ho, dof]
          · rw [hs, dfs]
          · rw [hms, dms]
          · rw [ho, hs]
            exact hp

/-- C1 witness: the theorem applied to the concrete container `c1wbuf`
at index 0. -/
theorem c1_parse_table_witness :
    parse c1wbuf = .ok [c1went] ∧
    ([c1went].length = readLE c1wbuf 24 2 ∧
      c1went.flags = readLE c1wbuf 32 8 ∧
      c1went.offset = readLE c1wbuf 40 8 ∧
      c1went.file_size = readLE c1wbuf 48 8 ∧
      c1went.memory_size = readLE c1wbuf 56 8 ∧
      PUPEntry.process_bytes (decodeEntry (sliceRead c1wbuf 32 32))
          (sliceRead c1wbuf c1went.offset c1went.file_size)
        = .ok c1went) := by
  have hparse : parse c1wbuf = .ok [c1went] := by decide
  have hmain := c1_parse_table c1wbuf [c1went] hparse
  have hinst := hmain.2 0 (by decide)
  exact ⟨hparse, hmain.1, hinst.1, hinst.2.1, hinst.2.2.1, hinst.2.2.2.1, hinst.2.2.2.2⟩

/-- C1 counterexample: `parse` succeeds on `c1cbuf` although the single
entry carries fewer payload bytes than its `file_size` demands, so the
payload does not equal "the `file_size` bytes of the buffer starting at
absolute byte `offset`" as the claim states. -/
theorem c1_counterexample :
    parse c1cbuf = .ok [c1cent] ∧ c1cent.data.length < c1cent.file_size := by
  constructor
  · decide
  · decide

/-- Failing input for C2: a container whose single entry declares
`offset = 64`, `file_size = 100`, while the buffer ends 4 bytes after
offset 64. -/
def c2buf : List Nat :=
  [0x4F, 0x15, 0x3D, 0x1D] ++ List.replicate 20 0 ++ [1, 0] ++ List.replicate 6 0
    ++ (List.replicate 8 0 ++ [64, 0, 0, 0, 0, 0, 0, 0] ++ [100, 0, 0, 0, 0, 0, 0, 0]
        ++ List.replicate 8 0)
    ++ [1, 2, 3, 4]

/-- The entry `parse` produces for `c2buf`. -/
def c2ent : PUPEntry :=
  { flags := 0, offset := 64, file_size := 100, memory_size := 0, data := [1, 2, 3, 4] }

/-- C2: the claim demands `TruncatedPayload` when
`offset + file_size` exceeds the buffer length, but the source performs
the unchecked `stream.seek` / `stream.read`, so `parse` succeeds on
`c2buf` and silently attaches the 4 available bytes to an entry whose
`file_size` is 100. -/
theorem c2_silent_truncation :
    parse c2buf = .ok [c2ent] ∧
    c2buf.length < c2ent.offset + c2ent.file_size ∧
    c2ent.data.length < c2ent.file_size := by
  refine ⟨by decide, by decide, by decide⟩

/-- C3: payload processing dispatches exactly on bit 3 of `flags`: with
the bit set the result is the zlib decompression of the raw payload
(propagating `DecompressionError` on malformed data), with the bit clear
the raw payload is stored unchanged. -/
theorem c3_process_dispatch (e : PUPEntry) (d : List Nat) :
    (e.flags &&& 0x8 ≠ 0 →
      (∀ out, zlibInflate d = .ok out →
        e.process_bytes d = .ok { e with data := out }) ∧
      (∀ err, zlibInflate d = .error err → e.process_bytes d = .error err)) ∧
    (e.flags &&& 0x8 = 0 → e.process_bytes d = .ok { e with data := d }) := by
  constructor
  · intro hbit
    have hc : e.compressed = true := by
      unfold PUPEntry.compressed
      simpa using hbit
    constructor
    · intro out hout
      unfold PUPEntry.process_bytes
      rw [if_pos hc, hout]
    · intro err herr
      unfold PUPEntry.process_bytes
      rw [if_pos hc, herr]
  · intro hbit
    have hc : e.compressed = false := by
      unfold PUPEntry.compressed
      simpa using hbit
    unfold PUPEntry.process_bytes
    rw [if_neg (by simp [hc])]

/-- Concrete compressed entry for the C3 witness. -/
def c3went : PUPEntry := { flags := 8, offset := 0, file_size := 0, memory_size := 0, data := [] }

/-- Concrete uncompressed entry for the C3 witness. -/
def c3went0 : PUPEntry := { flags := 0, offset := 0, file_size := 0, memory_size := 0, data := [] }

/-- C3 witness: the dispatch theorem applied at concrete entries, with a
valid compressed stream, malformed data, and an uncompressed entry. -/
theorem c3_process_dispatch_witness :
    c3went.process_bytes (zlibCompress [7]) = .ok { c3went with data := [7] } ∧
    c3went.process_bytes [] = .error .DecompressionError ∧
    c3went0.process_bytes [3] = .ok { c3went0 with data := [3] } := by
  refine ⟨?_, ?_, ?_⟩
  · exact ((c3_process_dispatch c3went (zlibCompress [7])).1 (by decide)).1 [7]
      (zlibInflate_zlibCompress [7])
  · exact ((c3_process_dispatch c3went []).1 (by decide)).2 .DecompressionError (by decide)
  · exact (c3_process_dispatch c3went0 [3]).2 (by decide)

/-- Concrete entry with identifier `0xFFF`, absent from the filename
table. -/
def c4unknown : PUPEntry :=
  { flags := 0xFFF <<< 20, offset := 0, file_size := 0, memory_size := 0, data := [] }

/-- C4: the resolved filename is the filename table value for key
`flags >> 20` when present, otherwise `unknown_` followed by the
identifier in uppercase hexadecimal zero-padded to 4 digits; identifier
`0xFFF` resolves to `unknown_0FFF`. -/
theorem c4_file_name_resolution :
    (∀ (e : PUPEntry) (s : String),
        lookupName (e.flags >>> 20) = some s → e.file_name = s) ∧
    (∀ e : PUPEntry, lookupName (e.flags >>> 20) = none →
        e.file_name = "unknown_" ++ hex04X (e.flags >>> 20)) ∧
    (∀ n, n < 65536 → (hex04X n).length = 4) ∧
    c4unknown.file_name = "unknown_0FFF" := by
  refine ⟨?_, ?_, ?_, ?_⟩
  · intro e s hs
    unfold PUPEntry.file_name
    rw [hs]
  · intro e hn
    unfold PUPEntry.file_name
    rw [hn]
  · intro n hn
    have hle : (toHexAux n).length ≤ 4 := toHexAux_length_le 4 n (by omega)
    have hmk : (String.mk (List.replicate (4 - (toHexAux n).length) '0' ++ toHexAux n)).length
        = (List.replicate (4 - (toHexAux n).length) '0' ++ toHexAux n).length := rfl
    unfold hex04X
    rw [hmk, List.length_append, List.length_replicate]
    omega
  · decide

/-- C4 witness: both resolution branches at concrete entries. -/
theorem c4_file_name_resolution_witness :
    ((PUPEntry.mk 0x500000 0 0 0 []).file_name = "coreos.slb" ∧
      (PUPEntry.mk (0xABC <<< 20) 0 0 0 []).file_name = "unknown_0ABC" ∧
      (hex04X 0xFFF).length = 4) := by
  refine ⟨?_, ?_, ?_⟩
  · exact c4_file_name_resolution.1 (PUPEntry.mk 0x500000 0 0 0 []) "coreos.slb" (by decide)
  · have h := c4_file_name_resolution.2.1 (PUPEntry.mk (0xABC <<< 20) 0 0 0 []) (by decide)
    rw [h]
    decide
  · exact c4_file_name_resolution.2.2.1 0xFFF (by decide)

/-- C5: processing any zlib-compressed byte sequence through an entry
with the compression bit set recovers the original bytes exactly. -/
theorem c5_roundtrip (e : PUPEntry) (xs : List Nat) (h : e.compressed = true) :
    e.process_bytes (zlibCompress xs) = .ok { e with data := xs } := by
  unfold PUPEntry.process_bytes
  rw [if_pos h, zlibInflate_zlibCompress]

/-- Concrete compressed entry for the C5 witness. -/
def c5went : PUPEntry := { flags := 8, offset := 1, file_size := 2, memory_size := 3, data := [] }

/-- C5 witness: the round trip at a concrete entry and byte sequence. -/
theorem c5_roundtrip_witness :
    c5went.compressed = true ∧
    c5went.process_bytes (zlibCompress [10, 20]) = .ok { c5went with data := [10, 20] } :=
  ⟨by decide, c5_roundtrip c5went [10, 20] (by decide)⟩

/-- C6: every buffer of at least header size whose little-endian 32-bit
magic differs from `0x1D3D154F` makes `parse` fail with `InvalidMagic`,
whatever the other header fields hold. -/
theorem c6_invalid_magic (buf : List Nat) (h32 : 32 ≤ buf.length)
    (hm : readLE buf 0 4 ≠ 0x1D3D154F) : parse buf = .error .InvalidMagic := by
  unfold parse parseS
  rw [if_neg (by omega), if_pos hm]

/-- C6 witness: an all-zero 32-byte buffer. -/
theorem c6_invalid_magic_witness :
    32 ≤ (List.replicate 32 0 : List Nat).length ∧
    readLE (List.replicate 32 0) 0 4 ≠ 0x1D3D154F ∧
    parse (List.replicate 32 0) = .error .InvalidMagic :=
  ⟨by decide, by decide, c6_invalid_magic (List.replicate 32 0) (by decide) (by decide)⟩

/-- C7: every buffer shorter than the 32-byte fixed header makes `parse`
fail with `HeaderTooShort`. -/
theorem c7_header_too_short (buf : List Nat) (h : buf.length < 32) :
    parse buf = .error .HeaderTooShort := by
  unfold parse parseS
  rw [if_pos h]

/-- C7 witness: the empty buffer. -/
theorem c7_header_too_short_witness :
    ([] : List Nat).length < 32 ∧ parse [] = .error .HeaderTooShort :=
  ⟨by decide, c7_header_too_short [] (by decide)⟩

/-- C8: extraction writes one output file per distinct resolved filename
— a filename is present in the output directory exactly when some entry
resolves to it — and the final contents of each filename are the bytes
of the last entry in table order that resolves to it. -/
theorem c8_extract_last_wins (entries : List PUPEntry) (name : String) :
    lookupFS (extractFS entries) name =
      (entries.reverse.find? (fun e => e.file_name == name)).map (fun e => e.data) := by
  unfold extractFS
  rw [extract_foldl]
  cases entries.reverse.find? (fun e => e.file_name == name) with
  | none => simp [lookupFS]
  | some e => simp

/-- C9: payload processing only replaces the `data` field; `flags`,
`offset`, `file_size` and `memory_size` are unchanged. -/
theorem c9_process_frame (e : PUPEntry) (d : List Nat) (e2 : PUPEntry)
    (h : e.process_bytes d = .ok e2) :
    e2.flags = e.flags ∧ e2.offset = e.offset ∧ e2.file_size = e.file_size ∧
      e2.memory_size = e.memory_size :=
  process_bytes_fields e d e2 h

/-- Concrete entry for the C9 witness. -/
def c9went : PUPEntry := { flags := 5, offset := 6, file_size := 7, memory_size := 8, data := [9] }

/-- C9 witness: the frame property at a concrete entry and payload. -/
theorem c9_process_frame_witness :
    c9went.process_bytes [1, 2] = .ok (PUPEntry.mk 5 6 7 8 [1, 2]) ∧
    ((PUPEntry.mk 5 6 7 8 [1, 2]).flags = c9went.flags ∧
      (PUPEntry.mk 5 6 7 8 [1, 2]).offset = c9went.offset ∧
      (PUPEntry.mk 5 6 7 8 [1, 2]).file_size = c9went.file_size ∧
      (PUPEntry.mk 5 6 7 8 [1, 2]).memory_size = c9went.memory_size) :=
  ⟨by decide, c9_process_frame c9went [1, 2] (PUPEntry.mk 5 6 7 8 [1, 2]) (by decide)⟩

/-- C10: when the magic check fails, `parse` raises before decoding any
entry descriptor or reading any payload, leaving the entry list of the
freshly constructed container empty. -/
theorem c10_state_on_bad_magic (buf : List Nat) (h32 : 32 ≤ buf.length)
    (hm : readLE buf 0 4 ≠ 0x1D3D154F) :
    parseS buf = ([], some .InvalidMagic) := by
  unfold parseS
  rw [if_neg (by omega), if_pos hm]

/-- C10 witness: a 32-byte buffer of the byte 7. -/
theorem c10_state_on_bad_magic_witness :
    32 ≤ (List.replicate 32 7 : List Nat).length ∧
    readLE (List.replicate 32 7) 0 4 ≠ 0x1D3D154F ∧
    parseS (List.replicate 32 7) = ([], some .InvalidMagic) :=
  ⟨by decide, by decide, c10_state_on_bad_magic (List.replicate 32 7) (by decide) (by decide)⟩

end PUPModel
